import Mathlib

/-
Verification of the trace-to-graph aggregation pipeline of
antara-align-cfg/antara_cfg_builder.py (class CFGBuilder).

The pipeline under study:
  grouped = trace_df.groupby(trace_df.columns.tolist()).size()
              .reset_index().rename(columns).
  G = nx.from_pandas_edgelist(grouped, edge_attr, create_using) on nx.DiGraph.
  graph_to_adjacency_matrix returns (tuple(G.nodes()), nx.adjacency_matrix(G, w)).

The dataframe is modelled as a list of rows; a missing field (pandas NaN,
arising when a raw record does not carry both fields) is an empty Option cell.
Pandas groupby with its default dropna excludes any row whose key contains a
NaN; group keys are enumerated in sorted order.  networkx DiGraph.add_edge
overwrites the attributes of an existing edge in place, and
nx.adjacency_matrix raises NetworkXError on a graph with an empty node list.
-/

namespace CFGBuilder

/-- Node identifiers are opaque tokens (function names or addresses). -/
abbrev NodeId := String

/-- One cell of the trace dataframe; a missing value (pandas NaN) is none. -/
abbrev Cell := Option NodeId

/-- One row of the call-trace dataframe trace_df, columns source and target. -/
abbrev TraceRow := Cell × Cell

/-- The rows of the dataframe whose source and target cells are both present;
pandas groupby with its default dropna groups exactly these rows and silently
excludes the rest. -/
def validRows (df : List TraceRow) : List (NodeId × NodeId) :=
  df.filterMap fun r =>
    match r with
    | (some s, some t) => some (s, t)
    | _ => none

/-- A dataframe made of well-formed two-field records, as produced by reading
a well-formed callgraph.csv into trace_df. -/
def recordsToDf (records : List (NodeId × NodeId)) : List TraceRow :=
  records.map fun r => (some r.1, some r.2)

/-- Lexicographic code-point order on strings, the order pandas uses to sort
string group keys. -/
def charListLe : List Char → List Char → Bool
  | [], _ => true
  | _ :: _, [] => false
  | a :: as, b :: bs => if a = b then charListLe as bs else decide (a < b)

/-- Group keys are compared lexicographically on the source column and then
the target column. -/
def keyLe (a b : NodeId × NodeId) : Bool :=
  if a.1 = b.1 then charListLe a.2.data b.2.data else charListLe a.1.data b.1.data

/-- The distinct grouping keys of trace_df.groupby on the source and target
columns, in the sorted order pandas enumerates them. -/
def groupKeys (rows : List (NodeId × NodeId)) : List (NodeId × NodeId) :=
  List.insertionSort (fun a b => keyLe a b = true) rows.dedup

/-- The groupby step of _calltrace_to_callgraph:
trace_df.groupby(trace_df.columns.tolist()).size().reset_index() renamed so
the size column is called label.  One output row per distinct
(source, target) key, paired with the number of dataframe rows carrying that
key. -/
def grouped (df : List TraceRow) : List ((NodeId × NodeId) × Nat) :=
  (groupKeys (validRows df)).map fun k =>
    (k, (validRows df).countP fun r => decide (r = k))

/-- A networkx DiGraph as populated by nx.from_pandas_edgelist: the node
insertion order, and one entry per directed edge carrying its label
attribute. -/
structure DiGraph where
  nodes : List NodeId
  edges : List ((NodeId × NodeId) × Nat)
deriving DecidableEq

/-- Graphtype = nx.DiGraph(): the empty directed graph. -/
def emptyDiGraph : DiGraph := { nodes := [], edges := [] }

/-- G.add_node(n): appends n to the node dict when not already present. -/
def addNode (g : DiGraph) (n : NodeId) : DiGraph :=
  if n ∈ g.nodes then g else { g with nodes := g.nodes ++ [n] }

/-- G.add_edge(u, v) with label w: inserts both endpoints, then stores w as
the label of edge (u, v).  When the edge already exists networkx overwrites
its attributes in place; no error of any kind is raised. -/
def addEdge (g : DiGraph) (u v : NodeId) (w : Nat) : DiGraph :=
  if g.edges.any fun e => e.1 = (u, v) then
    { nodes := (addNode (addNode g u) v).nodes
      edges := g.edges.map fun e => if e.1 = (u, v) then ((u, v), w) else e }
  else
    { nodes := (addNode (addNode g u) v).nodes
      edges := g.edges ++ [((u, v), w)] }

/-- nx.from_pandas_edgelist(grouped, edge_attr, create_using) on a DiGraph:
adds one edge per dataframe row, in row order, the label column becoming the
edge attribute. -/
def from_pandas_edgelist (rows : List ((NodeId × NodeId) × Nat)) : DiGraph :=
  rows.foldl (fun g r => addEdge g r.1.1 r.1.2 r.2) emptyDiGraph

/-- CFGBuilder._calltrace_to_callgraph: aggregate the run callgraph edge
counts by groupby, then populate the weighted directed graph. -/
def calltrace_to_callgraph (trace_df : List TraceRow) : DiGraph :=
  from_pandas_edgelist (grouped trace_df)

/-- The label attribute of edge (u, v) of G, when that edge is present. -/
def edgeLabel? (g : DiGraph) (u v : NodeId) : Option Nat :=
  (g.edges.find? fun e => e.1 = (u, v)).map fun e => e.2

/-- CFGBuilder.graph_to_adjacency_matrix: node_list = tuple(G.nodes()), then
nx.adjacency_matrix(G, weight=label) when use_weights (the Python default) or
nx.adjacency_matrix(G, weight=None) otherwise.  networkx raises NetworkXError,
message "Graph has no nodes or edges", when the node list is empty; otherwise
cell (i, j) of the returned matrix holds the label of the edge from
node_list[i] to node_list[j] (the constant 1 under weight=None), and 0 where
no such edge exists. -/
def graph_to_adjacency_matrix (G : DiGraph) (use_weights : Bool) :
    Except String (List NodeId × List (List Nat)) :=
  if G.nodes.isEmpty then
    .error "Graph has no nodes or edges"
  else if use_weights then
    .ok (G.nodes, G.nodes.map fun u => G.nodes.map fun v =>
      match edgeLabel? G u v with
      | some w => w
      | none => 0)
  else
    .ok (G.nodes, G.nodes.map fun u => G.nodes.map fun v =>
      match edgeLabel? G u v with
      | some _ => 1
      | none => 0)

/-- The call graph_to_adjacency_matrix(G, use_weights) in state-passing form:
the method body only reads the graph object (tuple(G.nodes()) and the
read-only nx.adjacency_matrix), so the post-state of the object is the input
graph itself. -/
def graph_to_adjacency_matrix_call (G : DiGraph) (use_weights : Bool) :
    (Except String (List NodeId × List (List Nat))) × DiGraph :=
  (graph_to_adjacency_matrix G use_weights, G)

/-- Entry (i, j) of a matrix represented as a list of rows. -/
def entry (m : List (List Nat)) (i j : Nat) : Nat :=
  (m.getD i []).getD j 0

/-- Sum of all entries of a matrix represented as a list of rows. -/
def matrixSum (m : List (List Nat)) : Nat :=
  (m.map List.sum).sum

/-- Folding the rows of an edge-list dataframe into an arbitrary starting
graph; from_pandas_edgelist is this fold started at the empty graph. -/
def buildSteps (g : DiGraph) (rows : List ((NodeId × NodeId) × Nat)) : DiGraph :=
  rows.foldl (fun g r => addEdge g r.1.1 r.1.2 r.2) g

/-- The weight of the last entry of rows carrying key k, when one exists.
Under the overwrite semantics of DiGraph.add_edge this is the label the built
graph retains for that key. -/
def lastLabel (rows : List ((NodeId × NodeId) × Nat)) (k : NodeId × NodeId) :
    Option Nat :=
  (rows.reverse.find? fun r => r.1 = k).map fun r => r.2

theorem validRows_recordsToDf (records : List (NodeId × NodeId)) :
    validRows (recordsToDf records) = records := by
  induction records with
  | nil => rfl
  | cons r tl ih =>
      simp only [recordsToDf, List.map_cons, validRows, List.filterMap_cons]
      exact congrArg (r :: ·) ih

theorem mem_groupKeys {rows : List (NodeId × NodeId)} {k : NodeId × NodeId} :
    k ∈ groupKeys rows ↔ k ∈ rows := by
  rw [groupKeys, List.mem_insertionSort, List.mem_dedup]

theorem nodup_groupKeys (rows : List (NodeId × NodeId)) :
    (groupKeys rows).Nodup :=
  ((List.perm_insertionSort _ rows.dedup).nodup_iff).mpr (List.nodup_dedup rows)

theorem perm_groupKeys (rows : List (NodeId × NodeId)) :
    (groupKeys rows).Perm rows.dedup :=
  List.perm_insertionSort _ rows.dedup

theorem grouped_map_fst (df : List TraceRow) :
    (grouped df).map Prod.fst = groupKeys (validRows df) := by
  simp [grouped, List.map_map, Function.comp_def]

theorem nodup_grouped_map_fst (df : List TraceRow) :
    ((grouped df).map Prod.fst).Nodup := by
  rw [grouped_map_fst]
  exact nodup_groupKeys (validRows df)

theorem mem_grouped_iff {df : List TraceRow} {p : NodeId × NodeId} {w : Nat} :
    (p, w) ∈ grouped df ↔
      p ∈ validRows df ∧ w = (validRows df).countP fun r => decide (r = p) := by
  constructor
  · intro h
    rcases List.mem_map.mp h with ⟨k, hk, hkeq⟩
    have h1 : k = p := congrArg Prod.fst hkeq
    subst h1
    have h2 : ((validRows df).countP fun r => decide (r = k)) = w :=
      congrArg Prod.snd hkeq
    exact ⟨mem_groupKeys.mp hk, h2.symm⟩
  · rintro ⟨hp, rfl⟩
    exact List.mem_map.mpr ⟨p, mem_groupKeys.mpr hp, rfl⟩

theorem sum_countP_dedup (l : List (NodeId × NodeId)) :
    (l.dedup.map fun k => l.countP fun r => decide (r = k)).sum = l.length :=
  List.sum_map_count_dedup_eq_length l

theorem grouped_map_snd_sum (df : List TraceRow) :
    ((grouped df).map Prod.snd).sum = (validRows df).length := by
  have h1 : (grouped df).map Prod.snd
      = (groupKeys (validRows df)).map
          fun k => (validRows df).countP fun r => decide (r = k) := by
    simp [grouped, List.map_map, Function.comp_def]
  have h2 : ((groupKeys (validRows df)).map
        (fun k => (validRows df).countP fun r => decide (r = k))).Perm
      ((validRows df).dedup.map
        fun k => (validRows df).countP fun r => decide (r = k)) :=
    (perm_groupKeys (validRows df)).map _
  rw [h1, h2.sum_eq]
  exact sum_countP_dedup (validRows df)

theorem addNode_edges (g : DiGraph) (n : NodeId) :
    (addNode g n).edges = g.edges := by
  unfold addNode
  split <;> rfl

theorem mem_addNode_nodes {g : DiGraph} {n m : NodeId} :
    m ∈ (addNode g n).nodes ↔ m ∈ g.nodes ∨ m = n := by
  unfold addNode
  by_cases h : n ∈ g.nodes
  · rw [if_pos h]
    constructor
    · exact Or.inl
    · rintro (hm | rfl)
      · exact hm
      · exact h
  · rw [if_neg h]
    simp

theorem addNode_nodes_nodup {g : DiGraph} (h : g.nodes.Nodup) (n : NodeId) :
    (addNode g n).nodes.Nodup := by
  unfold addNode
  by_cases hn : n ∈ g.nodes
  · rwa [if_pos hn]
  · rw [if_neg hn]
    simp [List.nodup_append, h, hn]

theorem addEdge_def (g : DiGraph) (u v : NodeId) (w : Nat) :
    addEdge g u v w =
      if g.edges.any fun e => e.1 = (u, v) then
        { nodes := (addNode (addNode g u) v).nodes
          edges := g.edges.map fun e => if e.1 = (u, v) then ((u, v), w) else e }
      else
        { nodes := (addNode (addNode g u) v).nodes
          edges := g.edges ++ [((u, v), w)] } := rfl

theorem addEdge_nodes (g : DiGraph) (u v : NodeId) (w : Nat) :
    (addEdge g u v w).nodes = (addNode (addNode g u) v).nodes := by
  rw [addEdge_def]
  split <;> rfl

theorem mem_addEdge_nodes_of_mem {g : DiGraph} {n : NodeId} (h : n ∈ g.nodes)
    (u v : NodeId) (w : Nat) : n ∈ (addEdge g u v w).nodes := by
  rw [addEdge_nodes]
  exact mem_addNode_nodes.mpr (Or.inl (mem_addNode_nodes.mpr (Or.inl h)))

theorem fst_mem_addEdge_nodes (g : DiGraph) (u v : NodeId) (w : Nat) :
    u ∈ (addEdge g u v w).nodes := by
  rw [addEdge_nodes]
  exact mem_addNode_nodes.mpr (Or.inl (mem_addNode_nodes.mpr (Or.inr rfl)))

theorem snd_mem_addEdge_nodes (g : DiGraph) (u v : NodeId) (w : Nat) :
    v ∈ (addEdge g u v w).nodes := by
  rw [addEdge_nodes]
  exact mem_addNode_nodes.mpr (Or.inr rfl)

theorem addEdge_nodes_nodup {g : DiGraph} (h : g.nodes.Nodup)
    (u v : NodeId) (w : Nat) : (addEdge g u v w).nodes.Nodup := by
  rw [addEdge_nodes]
  exact addNode_nodes_nodup (addNode_nodes_nodup h u) v

theorem any_key_iff {edges : List ((NodeId × NodeId) × Nat)}
    {k : NodeId × NodeId} :
    (edges.any fun e => e.1 = k) = true ↔ k ∈ edges.map Prod.fst := by
  rw [List.any_eq_true]
  constructor
  · rintro ⟨e, he, hp⟩
    exact List.mem_map.mpr ⟨e, he, of_decide_eq_true hp⟩
  · intro hm
    rcases List.mem_map.mp hm with ⟨e, he, rfl⟩
    exact ⟨e, he, decide_eq_true rfl⟩

theorem key_map_replace (edges : List ((NodeId × NodeId) × Nat))
    (k : NodeId × NodeId) (w : Nat) :
    (edges.map fun e => if e.1 = k then (k, w) else e).map Prod.fst
      = edges.map Prod.fst := by
  induction edges with
  | nil => rfl
  | cons e tl ih =>
      by_cases h : e.1 = k <;> simp [h, ih]

theorem addEdge_edges_of_not_mem {g : DiGraph} {u v : NodeId}
    (h : (u, v) ∉ g.edges.map Prod.fst) (w : Nat) :
    (addEdge g u v w).edges = g.edges ++ [((u, v), w)] := by
  rw [addEdge_def, if_neg]
  intro hc
  exact h (any_key_iff.mp hc)

theorem addEdge_keys_nodup {g : DiGraph} (h : (g.edges.map Prod.fst).Nodup)
    (u v : NodeId) (w : Nat) :
    ((addEdge g u v w).edges.map Prod.fst).Nodup := by
  rw [addEdge_def]
  split
  · rw [key_map_replace]
    exact h
  · rename_i hc
    have h2 : (u, v) ∉ g.edges.map Prod.fst := fun hm => hc (any_key_iff.mpr hm)
    simp [List.nodup_append, h, h2]

theorem addEdge_endpoints {g : DiGraph}
    (h : ∀ e ∈ g.edges, e.1.1 ∈ g.nodes ∧ e.1.2 ∈ g.nodes)
    (u v : NodeId) (w : Nat) :
    ∀ e ∈ (addEdge g u v w).edges,
      e.1.1 ∈ (addEdge g u v w).nodes ∧ e.1.2 ∈ (addEdge g u v w).nodes := by
  intro e he
  have hu : u ∈ (addEdge g u v w).nodes := fst_mem_addEdge_nodes g u v w
  have hv : v ∈ (addEdge g u v w).nodes := snd_mem_addEdge_nodes g u v w
  have hedges : (addEdge g u v w).edges = g.edges.map
        (fun e => if e.1 = (u, v) then ((u, v), w) else e)
      ∨ (addEdge g u v w).edges = g.edges ++ [((u, v), w)] := by
    rw [addEdge_def]
    split
    · exact Or.inl rfl
    · exact Or.inr rfl
  rcases hedges with heq | heq
  · rw [heq] at he
    rcases List.mem_map.mp he with ⟨e0, he0, rfl⟩
    by_cases h0 : e0.1 = (u, v)
    · rw [if_pos h0]
      exact ⟨hu, hv⟩
    · rw [if_neg h0]
      exact ⟨mem_addEdge_nodes_of_mem (h e0 he0).1 u v w,
        mem_addEdge_nodes_of_mem (h e0 he0).2 u v w⟩
  · rw [heq] at he
    rcases List.mem_append.mp he with he0 | he0
    · exact ⟨mem_addEdge_nodes_of_mem (h e he0).1 u v w,
        mem_addEdge_nodes_of_mem (h e he0).2 u v w⟩
    · rcases List.mem_singleton.mp he0 with rfl
      exact ⟨hu, hv⟩

theorem buildSteps_nil (g : DiGraph) : buildSteps g [] = g := rfl

theorem buildSteps_cons (g : DiGraph) (r : (NodeId × NodeId) × Nat)
    (rows : List ((NodeId × NodeId) × Nat)) :
    buildSteps g (r :: rows) = buildSteps (addEdge g r.1.1 r.1.2 r.2) rows := rfl

theorem from_pandas_edgelist_eq (rows : List ((NodeId × NodeId) × Nat)) :
    from_pandas_edgelist rows = buildSteps emptyDiGraph rows := rfl

theorem buildSteps_nodes_mem :
    ∀ (rows : List ((NodeId × NodeId) × Nat)) (g : DiGraph) (n : NodeId),
      n ∈ g.nodes → n ∈ (buildSteps g rows).nodes := by
  intro rows
  induction rows with
  | nil => exact fun g n h => h
  | cons r tl ih =>
      intro g n h
      rw [buildSteps_cons]
      exact ih _ n (mem_addEdge_nodes_of_mem h _ _ _)

theorem buildSteps_nodes_nodup :
    ∀ (rows : List ((NodeId × NodeId) × Nat)) (g : DiGraph),
      g.nodes.Nodup → (buildSteps g rows).nodes.Nodup := by
  intro rows
  induction rows with
  | nil => exact fun g h => h
  | cons r tl ih =>
      intro g h
      rw [buildSteps_cons]
      exact ih _ (addEdge_nodes_nodup h _ _ _)

theorem buildSteps_keys_nodup :
    ∀ (rows : List ((NodeId × NodeId) × Nat)) (g : DiGraph),
      (g.edges.map Prod.fst).Nodup →
      ((buildSteps g rows).edges.map Prod.fst).Nodup := by
  intro rows
  induction rows with
  | nil => exact fun g h => h
  | cons r tl ih =>
      intro g h
      rw [buildSteps_cons]
      exact ih _ (addEdge_keys_nodup h _ _ _)

theorem buildSteps_endpoints :
    ∀ (rows : List ((NodeId × NodeId) × Nat)) (g : DiGraph),
      (∀ e ∈ g.edges, e.1.1 ∈ g.nodes ∧ e.1.2 ∈ g.nodes) →
      ∀ e ∈ (buildSteps g rows).edges,
        e.1.1 ∈ (buildSteps g rows).nodes ∧ e.1.2 ∈ (buildSteps g rows).nodes := by
  intro rows
  induction rows with
  | nil => exact fun g h => h
  | cons r tl ih =>
      intro g h
      rw [buildSteps_cons]
      exact ih _ (addEdge_endpoints h _ _ _)

theorem buildSteps_edges_of_nodup :
    ∀ (rows : List ((NodeId × NodeId) × Nat)) (g : DiGraph),
      (g.edges.map Prod.fst ++ rows.map Prod.fst).Nodup →
      (buildSteps g rows).edges = g.edges ++ rows := by
  intro rows
  induction rows with
  | nil => intro g h; rw [buildSteps_nil, List.append_nil]
  | cons r tl ih =>
      intro g h
      rw [List.map_cons] at h
      have hnot : r.1 ∉ g.edges.map Prod.fst := by
        intro hm
        rcases List.nodup_append.mp h with ⟨-, -, hd⟩
        exact hd hm (List.mem_cons_self _ _)
      have hstep : (addEdge g r.1.1 r.1.2 r.2).edges = g.edges ++ [r] :=
        addEdge_edges_of_not_mem hnot r.2
      rw [buildSteps_cons, ih _ ?hnd, hstep, List.append_assoc,
        List.singleton_append]
      case hnd =>
        rw [hstep, List.map_append, List.append_assoc]
        simpa using h

theorem from_pandas_edgelist_edges {rows : List ((NodeId × NodeId) × Nat)}
    (h : (rows.map Prod.fst).Nodup) :
    (from_pandas_edgelist rows).edges = rows := by
  rw [from_pandas_edgelist_eq, buildSteps_edges_of_nodup rows emptyDiGraph]
  · rfl
  · simpa [emptyDiGraph] using h

theorem from_pandas_edgelist_nodes_ne_nil
    {rows : List ((NodeId × NodeId) × Nat)} (h : rows ≠ []) :
    (from_pandas_edgelist rows).nodes ≠ [] := by
  cases rows with
  | nil => exact absurd rfl h
  | cons r tl =>
      have h1 : r.1.1 ∈ (from_pandas_edgelist (r :: tl)).nodes := by
        rw [from_pandas_edgelist_eq, buildSteps_cons]
        exact buildSteps_nodes_mem tl _ _
          (fst_mem_addEdge_nodes emptyDiGraph r.1.1 r.1.2 r.2)
      intro hnil
      rw [hnil] at h1
      exact List.not_mem_nil _ h1

theorem replace_key_fst (e : (NodeId × NodeId) × Nat) (kk : NodeId × NodeId)
    (w : Nat) : (if e.1 = kk then (kk, w) else e).1 = e.1 := by
  by_cases h : e.1 = kk
  · rw [if_pos h, h]
  · rw [if_neg h]

theorem find?_map_key (edges : List ((NodeId × NodeId) × Nat))
    (k kk : NodeId × NodeId) (w : Nat) :
    ((edges.map fun e => if e.1 = kk then (kk, w) else e).find?
        fun e => e.1 = k)
      = (edges.find? fun e => e.1 = k).map
          fun e => if e.1 = kk then (kk, w) else e := by
  induction edges with
  | nil => rfl
  | cons e tl ih =>
      rw [List.map_cons, List.find?_cons, List.find?_cons]
      have hk : (decide ((if e.1 = kk then (kk, w) else e).1 = k))
          = decide (e.1 = k) := by rw [replace_key_fst]
      rw [hk]
      cases hd : decide (e.1 = k) with
      | false => simpa using ih
      | true => rfl

theorem edgeLabel?_addEdge (g : DiGraph) (a b u v : NodeId) (w : Nat) :
    edgeLabel? (addEdge g a b w) u v =
      if (a, b) = (u, v) then some w else edgeLabel? g u v := by
  by_cases hc : (g.edges.any fun e => e.1 = (a, b)) = true
  · have hE : (addEdge g a b w).edges
        = g.edges.map fun e => if e.1 = (a, b) then ((a, b), w) else e := by
      rw [addEdge_def, if_pos hc]
    unfold edgeLabel?
    rw [hE, find?_map_key]
    by_cases hab : (a, b) = (u, v)
    · rw [if_pos hab]
      rcases List.any_eq_true.mp hc with ⟨e0, he0, hp0⟩
      have h1 : (g.edges.find? fun e => e.1 = (u, v)).isSome = true := by
        rw [List.find?_isSome]
        refine ⟨e0, he0, ?_⟩
        rw [← hab]
        exact hp0
      rcases Option.isSome_iff_exists.mp h1 with ⟨e1, he1⟩
      have hk0 := List.find?_some he1
      have hk1 : e1.1 = (u, v) := of_decide_eq_true hk0
      rw [he1, Option.map_some', Option.map_some']
      rw [show (if e1.1 = (a, b) then ((a, b), w) else e1) = ((a, b), w) from
        if_pos (by rw [hk1, hab])]
    · rw [if_neg hab]
      cases hf : g.edges.find? fun e => e.1 = (u, v) with
      | none => rfl
      | some e1 =>
          have hk0 := List.find?_some hf
          have hk1 : e1.1 = (u, v) := of_decide_eq_true hk0
          have hne : ¬ e1.1 = (a, b) := by
            rw [hk1]
            exact fun hcon => hab hcon.symm
          rw [Option.map_some', if_neg hne, Option.map_some']
  · have hE : (addEdge g a b w).edges = g.edges ++ [((a, b), w)] := by
      rw [addEdge_def, if_neg hc]
    unfold edgeLabel?
    rw [hE, List.find?_append]
    by_cases hab : (a, b) = (u, v)
    · rw [if_pos hab]
      have h0 : (g.edges.find? fun e => e.1 = (u, v)) = none := by
        rw [List.find?_eq_none]
        intro x hx hp
        refine hc (List.any_eq_true.mpr ⟨x, hx, ?_⟩)
        rw [hab]
        exact hp
      have h1 : (List.find? (fun e => e.1 = (u, v)) [((a, b), w)])
          = some ((a, b), w) := by
        rw [List.find?_singleton, if_pos (decide_eq_true hab)]
      rw [h0, Option.none_or, h1, Option.map_some']
    · rw [if_neg hab]
      have h1 : (List.find? (fun e => e.1 = (u, v)) [((a, b), w)]) = none := by
        rw [List.find?_singleton, if_neg]
        intro hd
        exact hab (of_decide_eq_true hd)
      rw [h1, Option.or_none]

theorem lastLabel_nil (k : NodeId × NodeId) : lastLabel [] k = none := rfl

theorem lastLabel_cons (r : (NodeId × NodeId) × Nat)
    (rows : List ((NodeId × NodeId) × Nat)) (k : NodeId × NodeId) :
    lastLabel (r :: rows) k =
      (lastLabel rows k).or (if r.1 = k then some r.2 else none) := by
  unfold lastLabel
  rw [List.reverse_cons, List.find?_append, List.find?_singleton]
  cases hf : rows.reverse.find? fun e => e.1 = k with
  | none =>
      rw [Option.none_or, Option.map_none', Option.none_or]
      by_cases h : r.1 = k
      · rw [if_pos (decide_eq_true h), if_pos h, Option.map_some']
      · have hd : ¬ (decide (r.1 = k) = true) :=
          fun hd => h (of_decide_eq_true hd)
        rw [if_neg hd, if_neg h, Option.map_none']
  | some e1 => rfl

theorem buildSteps_label :
    ∀ (rows : List ((NodeId × NodeId) × Nat)) (g : DiGraph) (u v : NodeId),
      edgeLabel? (buildSteps g rows) u v =
        (lastLabel rows (u, v)).or (edgeLabel? g u v) := by
  intro rows
  induction rows with
  | nil =>
      intro g u v
      rw [buildSteps_nil, lastLabel_nil, Option.none_or]
  | cons r tl ih =>
      intro g u v
      rw [buildSteps_cons, ih, edgeLabel?_addEdge, lastLabel_cons,
        Option.or_assoc]
      have h2 : ((if r.1 = (u, v) then some r.2 else none).or
            (edgeLabel? g u v))
          = if (r.1.1, r.1.2) = (u, v) then some r.2 else edgeLabel? g u v := by
        rw [Prod.mk.eta]
        by_cases h : r.1 = (u, v)
        · rw [if_pos h, if_pos h]
          rfl
        · rw [if_neg h, if_neg h, Option.none_or]
      rw [h2]

theorem from_pandas_edgelist_label (rows : List ((NodeId × NodeId) × Nat))
    (u v : NodeId) :
    edgeLabel? (from_pandas_edgelist rows) u v = lastLabel rows (u, v) := by
  rw [from_pandas_edgelist_eq, buildSteps_label]
  cases lastLabel rows (u, v) with
  | none => rfl
  | some w => rfl

theorem sum_map_ite_zero :
    ∀ (nl : List NodeId) (a : NodeId) (c : Nat), a ∉ nl →
      (nl.map fun x => if x = a then c else 0).sum = 0 := by
  intro nl
  induction nl with
  | nil => intro a c _; rfl
  | cons x tl ih =>
      intro a c ha
      rw [List.map_cons, List.sum_cons,
        if_neg (fun h => ha (by rw [← h]; exact List.mem_cons_self x tl)),
        ih a c (fun hm => ha (List.mem_cons_of_mem x hm))]

theorem sum_map_ite_single :
    ∀ (nl : List NodeId), nl.Nodup → ∀ (a : NodeId), a ∈ nl → ∀ (c : Nat),
      (nl.map fun x => if x = a then c else 0).sum = c := by
  intro nl
  induction nl with
  | nil => intro _ a ha _; exact absurd ha (List.not_mem_nil a)
  | cons x tl ih =>
      intro hnd a ha c
      rw [List.map_cons, List.sum_cons]
      rcases List.mem_cons.mp ha with rfl | hmem
      · rw [if_pos rfl, sum_map_ite_zero tl a c (List.nodup_cons.mp hnd).1,
          Nat.add_zero]
      · have hx : ¬ x = a := fun h =>
          (List.nodup_cons.mp hnd).1 (by rw [h]; exact hmem)
        rw [if_neg hx, ih (List.nodup_cons.mp hnd).2 a hmem c, Nat.zero_add]

theorem sum_inner_pair (nl : List NodeId) (hnd : nl.Nodup)
    (k : NodeId × NodeId) (hk2 : k.2 ∈ nl) (c : Nat) (u : NodeId) :
    (nl.map fun v => if (u, v) = k then c else 0).sum
      = if u = k.1 then c else 0 := by
  by_cases hu : u = k.1
  · rw [if_pos hu]
    have hcong : (nl.map fun v => if (u, v) = k then c else 0)
        = nl.map fun v => if v = k.2 then c else 0 :=
      List.map_congr_left fun v _ => by
        by_cases hv : v = k.2
        · have hcnd : (u, v) = k := by rw [hu, hv, Prod.mk.eta]
          rw [if_pos hcnd, if_pos hv]
        · have hcnd : ¬ ((u, v) = k) := fun h => hv (congrArg Prod.snd h)
          rw [if_neg hcnd, if_neg hv]
    rw [hcong, sum_map_ite_single nl hnd k.2 hk2 c]
  · rw [if_neg hu]
    have hcong : (nl.map fun v => if (u, v) = k then c else 0)
        = nl.map fun _ => 0 :=
      List.map_congr_left fun v _ => by
        rw [if_neg (fun h => hu (congrArg Prod.fst h))]
    rw [hcong]
    simp

theorem sum_pair_single (nl : List NodeId) (hnd : nl.Nodup)
    (k : NodeId × NodeId) (hk1 : k.1 ∈ nl) (hk2 : k.2 ∈ nl) (c : Nat) :
    (nl.map fun u => (nl.map fun v => if (u, v) = k then c else 0).sum).sum
      = c := by
  have hcong : (nl.map fun u =>
        (nl.map fun v => if (u, v) = k then c else 0).sum)
      = nl.map fun u => if u = k.1 then c else 0 :=
    List.map_congr_left fun u _ => sum_inner_pair nl hnd k hk2 c u
  rw [hcong, sum_map_ite_single nl hnd k.1 hk1 c]

theorem sum_find_eq (F : Nat → Nat) :
    ∀ (es : List ((NodeId × NodeId) × Nat)) (nl : List NodeId),
      (es.map Prod.fst).Nodup → nl.Nodup →
      (∀ e ∈ es, e.1.1 ∈ nl ∧ e.1.2 ∈ nl) →
      (nl.map fun u => (nl.map fun v =>
          match es.find? fun e => e.1 = (u, v) with
          | some e => F e.2
          | none => 0).sum).sum
        = (es.map fun e => F e.2).sum := by
  intro es
  induction es with
  | nil =>
      intro nl _ _ _
      simp [List.find?_nil]
  | cons e tl ih =>
      intro nl hknd hnd hin
      have hknd2 : (e.1 :: tl.map Prod.fst).Nodup := by
        rw [← List.map_cons]
        exact hknd
      have hnotin : e.1 ∉ tl.map Prod.fst := (List.nodup_cons.mp hknd2).1
      have hknd' : (tl.map Prod.fst).Nodup := (List.nodup_cons.mp hknd2).2
      have hcell : ∀ u v,
          (match (e :: tl).find? fun x => x.1 = (u, v) with
           | some x => F x.2
           | none => 0)
          = (if (u, v) = e.1 then F e.2 else 0)
            + (match tl.find? fun x => x.1 = (u, v) with
               | some x => F x.2
               | none => 0) := by
        intro u v
        rw [List.find?_cons]
        by_cases h : e.1 = (u, v)
        · rw [show (decide (e.1 = (u, v))) = true from decide_eq_true h]
          have htl : (tl.find? fun x => x.1 = (u, v)) = none := by
            rw [List.find?_eq_none]
            intro x hx hp
            refine hnotin ?_
            rw [h]
            exact List.mem_map.mpr ⟨x, hx, of_decide_eq_true hp⟩
          rw [htl, if_pos h.symm]
          rfl
        · rw [show (decide (e.1 = (u, v))) = false from decide_eq_false h,
            if_neg (fun hcon => h hcon.symm), Nat.zero_add]
      have houter : (nl.map fun u => (nl.map fun v =>
            match (e :: tl).find? fun x => x.1 = (u, v) with
            | some x => F x.2
            | none => 0).sum)
          = nl.map fun u =>
              ((nl.map fun v => if (u, v) = e.1 then F e.2 else 0).sum
                + (nl.map fun v =>
                    match tl.find? fun x => x.1 = (u, v) with
                    | some x => F x.2
                    | none => 0).sum) := by
        refine List.map_congr_left fun u _ => ?_
        rw [List.map_congr_left fun v _ => hcell u v, List.sum_map_add]
      rw [houter, List.sum_map_add,
        sum_pair_single nl hnd e.1 (hin e (List.mem_cons_self e tl)).1
          (hin e (List.mem_cons_self e tl)).2 (F e.2),
        ih nl hknd' hnd
          (fun x hx => hin x (List.mem_cons_of_mem e hx)),
        List.map_cons, List.sum_cons]

theorem calltrace_edges (df : List TraceRow) :
    (calltrace_to_callgraph df).edges = grouped df := by
  unfold calltrace_to_callgraph
  exact from_pandas_edgelist_edges (nodup_grouped_map_fst df)

theorem graph_to_adjacency_matrix_ok_true (G : DiGraph)
    (h : ¬ G.nodes.isEmpty = true) :
    graph_to_adjacency_matrix G true =
      Except.ok (G.nodes, G.nodes.map fun u => G.nodes.map fun v =>
        match edgeLabel? G u v with
        | some w => w
        | none => 0) := by
  unfold graph_to_adjacency_matrix
  rw [if_neg h, if_pos rfl]

theorem graph_to_adjacency_matrix_ok_false (G : DiGraph)
    (h : ¬ G.nodes.isEmpty = true) :
    graph_to_adjacency_matrix G false =
      Except.ok (G.nodes, G.nodes.map fun u => G.nodes.map fun v =>
        match edgeLabel? G u v with
        | some _ => 1
        | none => 0) := by
  unfold graph_to_adjacency_matrix
  rw [if_neg h]
  rfl

theorem not_isEmpty_of_ne_nil {l : List NodeId} (h : l ≠ []) :
    ¬ l.isEmpty = true := by
  intro hc
  exact h (List.isEmpty_iff.mp hc)

theorem entry_map_map (f : NodeId → NodeId → Nat) (nl : List NodeId)
    (i j : Nat) (hi : i < nl.length) (hj : j < nl.length) :
    entry (nl.map fun u => nl.map fun v => f u v) i j
      = f (nl.getD i "") (nl.getD j "") := by
  unfold entry
  have h1 : (nl.map fun u => nl.map fun v => f u v).getD i []
      = nl.map fun v => f (nl.getD i "") v := by
    rw [List.getD_eq_getElem?_getD, List.getElem?_map,
      List.getElem?_eq_getElem hi, Option.map_some', Option.getD_some,
      List.getD_eq_getElem?_getD, List.getElem?_eq_getElem hi,
      Option.getD_some]
  rw [h1, List.getD_eq_getElem?_getD, List.getElem?_map,
    List.getElem?_eq_getElem hj, Option.map_some', Option.getD_some,
    List.getD_eq_getElem?_getD, List.getD_eq_getElem?_getD,
    List.getElem?_eq_getElem hj, Option.getD_some]

theorem matrixSum_map (nl : List NodeId) (f : NodeId → NodeId → Nat) :
    matrixSum (nl.map fun u => nl.map fun v => f u v)
      = (nl.map fun u => (nl.map fun v => f u v).sum).sum := by
  unfold matrixSum
  rw [List.map_map]
  rfl

/-- C1: for every finite sequence of (source, target) call records, the
groupby step of _calltrace_to_callgraph emits exactly one weighted edge per
distinct (source, target) pair, whose label equals the number of records
sharing that exact pair, and it never yields two edges with the same
(source, target) pair. -/
theorem aggregate_unique_counts (records : List (NodeId × NodeId)) :
    ((grouped (recordsToDf records)).map Prod.fst).Nodup
    ∧ (∀ p w, (p, w) ∈ grouped (recordsToDf records) →
        w = records.countP fun r => decide (r = p))
    ∧ (∀ p, p ∈ records →
        (p, records.countP fun r => decide (r = p))
          ∈ grouped (recordsToDf records)) := by
  refine ⟨nodup_grouped_map_fst _, ?_, ?_⟩
  · intro p w h
    have h2 := (mem_grouped_iff.mp h).2
    rwa [validRows_recordsToDf] at h2
  · intro p hp
    have h1 : p ∈ validRows (recordsToDf records) := by
      rwa [validRows_recordsToDf]
    have h2 := mem_grouped_iff.mpr ⟨h1, rfl⟩
    rwa [validRows_recordsToDf] at h2

/-- Witness for C1 at the records of spec scenario 1. -/
theorem aggregate_unique_counts_witness :
    2 = [(("A" : NodeId), ("B" : NodeId)), ("A", "B"), ("B", "C")].countP
          fun r => decide (r = ("A", "B")) :=
  (aggregate_unique_counts [("A", "B"), ("A", "B"), ("B", "C")]).2.1
    ("A", "B") 2 (by decide)

/-- C2: the sum of the weights of the edges produced by the groupby
aggregation equals the number of input records (weight conservation). -/
theorem aggregate_weight_conservation (records : List (NodeId × NodeId)) :
    ((grouped (recordsToDf records)).map Prod.snd).sum = records.length := by
  rw [grouped_map_snd_sum, validRows_recordsToDf]

/-- C3: aggregation is permutation invariant: permuted record sequences
yield the same multiset of weighted edges. -/
theorem aggregate_perm_invariant (records₁ records₂ : List (NodeId × NodeId))
    (h : records₁.Perm records₂) :
    (grouped (recordsToDf records₁)).Perm (grouped (recordsToDf records₂)) := by
  have hv : (validRows (recordsToDf records₁)).Perm
      (validRows (recordsToDf records₂)) := by
    rw [validRows_recordsToDf, validRows_recordsToDf]
    exact h
  have hk : (groupKeys (validRows (recordsToDf records₁))).Perm
      (groupKeys (validRows (recordsToDf records₂))) :=
    (perm_groupKeys _).trans (hv.dedup.trans (perm_groupKeys _).symm)
  unfold grouped
  have hmap := hk.map fun k =>
    (k, (validRows (recordsToDf records₁)).countP fun r => decide (r = k))
  refine hmap.trans ?_
  have hcong : ((groupKeys (validRows (recordsToDf records₂))).map fun k =>
        (k, (validRows (recordsToDf records₁)).countP fun r => decide (r = k)))
      = (groupKeys (validRows (recordsToDf records₂))).map fun k =>
        (k, (validRows (recordsToDf records₂)).countP fun r => decide (r = k)) :=
    List.map_congr_left fun k _ => by
      rw [hv.countP_eq]
  rw [hcong]

/-- Witness for C3 on a concrete two-record swap. -/
theorem aggregate_perm_invariant_witness :
    (grouped (recordsToDf [(("B" : NodeId), ("C" : NodeId)), ("A", "B")])).Perm
      (grouped (recordsToDf [("A", "B"), ("B", "C")])) :=
  aggregate_perm_invariant _ _ (List.Perm.swap ("A", "B") ("B", "C") [])

/-- C4: every edge of the call graph aggregated from any input trace carries
a weight of at least 1. -/
theorem callgraph_weights_pos (df : List TraceRow) :
    ∀ e ∈ (calltrace_to_callgraph df).edges, 1 ≤ e.2 := by
  intro e he
  rw [calltrace_edges] at he
  rcases e with ⟨p, w⟩
  rcases mem_grouped_iff.mp he with ⟨hp, rfl⟩
  exact List.countP_pos_iff.mpr ⟨p, hp, decide_eq_true rfl⟩

/-- Witness for C4 at the graph of spec scenario 1. -/
theorem callgraph_weights_pos_witness :
    1 ≤ ((("A", "B"), 2) : (NodeId × NodeId) × Nat).2 :=
  callgraph_weights_pos (recordsToDf [("A", "B"), ("A", "B"), ("B", "C")])
    (("A", "B"), 2) (by decide)

/-- C5 counterexample: building from an edge list in which two entries share
the (source, target) pair (A, B) raises nothing: the builder is total, and
the result silently keeps a single (A, B) edge carrying the last entry's
weight; no DuplicateEdgeError exists anywhere in the code. -/
theorem build_duplicate_no_error_cex :
    from_pandas_edgelist [((("A" : NodeId), ("B" : NodeId)), 3), (("A", "B"), 5)]
      = { nodes := ["A", "B"], edges := [(("A", "B"), 5)] } := by decide

/-- C5 amended: building a CallGraph from a weighted-edge sequence never
fails; entries sharing a (source, target) pair are silently merged, the
later entry overwriting the earlier, so the built graph holds at most one
edge per pair, labelled with the last such entry's weight. -/
theorem build_duplicate_last_wins (rows : List ((NodeId × NodeId) × Nat))
    (u v : NodeId) :
    ((from_pandas_edgelist rows).edges.map Prod.fst).Nodup
    ∧ edgeLabel? (from_pandas_edgelist rows) u v = lastLabel rows (u, v) := by
  constructor
  · rw [from_pandas_edgelist_eq]
    exact buildSteps_keys_nodup rows emptyDiGraph List.nodup_nil
  · exact from_pandas_edgelist_label rows u v

/-- C6 counterexample: the second dataframe row has a missing target field
(pandas NaN), so it does not form a two-field (source, target) pair; the
aggregation does not abort: the groupby silently drops that row and
continues over the remaining record, producing a graph, with no error of
any kind (no MalformedRecordError exists in the code). -/
theorem aggregate_malformed_dropped_cex :
    calltrace_to_callgraph [(some "A", some "B"), (some "C", none)]
      = { nodes := ["A", "B"], edges := [(("A", "B"), 1)] } := by decide

/-- C6 amended: a trace record whose source or target field is missing is
silently dropped by the groupby (pandas default dropna on the grouping key)
and aggregation continues over the remaining records; no error is raised
and the result is that of the trace with the malformed rows removed. -/
theorem aggregate_drops_invalid_rows (df : List TraceRow) :
    calltrace_to_callgraph df
      = calltrace_to_callgraph (df.filter fun r =>
          match r with
          | (some _, some _) => true
          | _ => false) := by
  unfold calltrace_to_callgraph
  have h : validRows (df.filter fun r =>
      match r with
      | (some _, some _) => true
      | _ => false) = validRows df := by
    induction df with
    | nil => rfl
    | cons r tl ih =>
        rcases r with ⟨s, t⟩
        rcases s with _ | s
        · rcases t with _ | t <;>
            simpa [List.filter_cons, validRows, List.filterMap_cons] using ih
        · rcases t with _ | t
          · simpa [List.filter_cons, validRows, List.filterMap_cons] using ih
          · simpa [List.filter_cons, validRows, List.filterMap_cons] using ih
  have h2 : grouped (df.filter fun r =>
      match r with
      | (some _, some _) => true
      | _ => false) = grouped df := by
    unfold grouped groupKeys
    rw [h]
  rw [h2]

/-- C7 counterexample: on the empty trace the aggregation yields the empty
graph, and adjacency-matrix extraction on that graph does not return an
empty NodeList with a 0 by 0 matrix: networkx raises NetworkXError. -/
theorem empty_trace_matrix_error_cex :
    graph_to_adjacency_matrix (calltrace_to_callgraph []) true
      = Except.error "Graph has no nodes or edges" := rfl

/-- C7 amended: aggregating the empty record sequence succeeds and yields
the graph with 0 nodes and 0 edges, but adjacency-matrix extraction on that
empty graph fails with the networkx error message instead of returning an
empty NodeList and a 0 by 0 matrix. -/
theorem empty_trace_behavior :
    calltrace_to_callgraph [] = emptyDiGraph
    ∧ (calltrace_to_callgraph []).nodes.length = 0
    ∧ (calltrace_to_callgraph []).edges.length = 0
    ∧ graph_to_adjacency_matrix (calltrace_to_callgraph []) false
        = Except.error "Graph has no nodes or edges" :=
  ⟨rfl, rfl, rfl, rfl⟩

/-- C8 counterexample: the CallGraph built from the empty edge list has
N = 0 nodes, and extraction returns the networkx error value rather than a
NodeList of length 0 together with a 0 by 0 matrix. -/
theorem adjacency_matrix_empty_graph_cex :
    graph_to_adjacency_matrix (from_pandas_edgelist []) false
      = Except.error "Graph has no nodes or edges" := rfl

/-- C8 amended: for every built CallGraph with N at least 1 nodes,
graph_to_adjacency_matrix returns the NodeList of length N together with an
N by N matrix whose cell (i, j) equals the stored label of the edge from
NodeList[i] to NodeList[j] when use_weights is true, equals 1 regardless of
the label when use_weights is false, and equals 0 where no edge exists. -/
theorem adjacency_matrix_spec (rows : List ((NodeId × NodeId) × Nat))
    (uw : Bool) (h : (from_pandas_edgelist rows).nodes ≠ []) :
    ∃ m, graph_to_adjacency_matrix (from_pandas_edgelist rows) uw
        = Except.ok ((from_pandas_edgelist rows).nodes, m)
      ∧ m.length = (from_pandas_edgelist rows).nodes.length
      ∧ (∀ row ∈ m, row.length = (from_pandas_edgelist rows).nodes.length)
      ∧ ∀ i j, i < (from_pandas_edgelist rows).nodes.length →
          j < (from_pandas_edgelist rows).nodes.length →
          entry m i j
            = match edgeLabel? (from_pandas_edgelist rows)
                  ((from_pandas_edgelist rows).nodes.getD i "")
                  ((from_pandas_edgelist rows).nodes.getD j "") with
              | some w => if uw then w else 1
              | none => 0 := by
  have h' := not_isEmpty_of_ne_nil h
  cases uw
  · refine ⟨_, graph_to_adjacency_matrix_ok_false _ h', by rw [List.length_map],
      ?_, ?_⟩
    · intro row hr
      rcases List.mem_map.mp hr with ⟨u, -, rfl⟩
      rw [List.length_map]
    · intro i j hi hj
      rw [entry_map_map (fun u v =>
        match edgeLabel? (from_pandas_edgelist rows) u v with
        | some _ => 1
        | none => 0) _ i j hi hj]
      cases edgeLabel? (from_pandas_edgelist rows)
          ((from_pandas_edgelist rows).nodes.getD i "")
          ((from_pandas_edgelist rows).nodes.getD j "") <;> rfl
  · refine ⟨_, graph_to_adjacency_matrix_ok_true _ h', by rw [List.length_map],
      ?_, ?_⟩
    · intro row hr
      rcases List.mem_map.mp hr with ⟨u, -, rfl⟩
      rw [List.length_map]
    · intro i j hi hj
      rw [entry_map_map (fun u v =>
        match edgeLabel? (from_pandas_edgelist rows) u v with
        | some w => w
        | none => 0) _ i j hi hj]
      cases edgeLabel? (from_pandas_edgelist rows)
          ((from_pandas_edgelist rows).nodes.getD i "")
          ((from_pandas_edgelist rows).nodes.getD j "") <;> rfl

/-- Witness for C8 at the one-edge graph built from [(A, B, 3)]. -/
theorem adjacency_matrix_spec_witness :
    ∃ m, graph_to_adjacency_matrix
        (from_pandas_edgelist [((("A" : NodeId), ("B" : NodeId)), 3)]) true
      = Except.ok ((from_pandas_edgelist
          [((("A" : NodeId), ("B" : NodeId)), 3)]).nodes, m) := by
  obtain ⟨m, h1, -, -, -⟩ :=
    adjacency_matrix_spec [((("A" : NodeId), ("B" : NodeId)), 3)] true
      (by decide)
  exact ⟨m, h1⟩

theorem sum_map_one (l : List ((NodeId × NodeId) × Nat)) :
    (l.map fun _ => 1).sum = l.length := by
  induction l with
  | nil => rfl
  | cons e tl ih => simp [ih, Nat.add_comm]

/-- C9: for a CallGraph built from a duplicate-free, nonempty weighted edge
list E (nonempty so that extraction succeeds), the entries of the weighted
adjacency matrix sum to the total weight of E, and the entries of the
unweighted indicator matrix sum to the number of distinct edges of E. -/
theorem adjacency_matrix_sum_roundtrip (E : List ((NodeId × NodeId) × Nat))
    (hnd : (E.map Prod.fst).Nodup) (hne : E ≠ []) :
    (∃ nl m, graph_to_adjacency_matrix (from_pandas_edgelist E) true
        = Except.ok (nl, m) ∧ matrixSum m = (E.map Prod.snd).sum)
    ∧ (∃ nl m, graph_to_adjacency_matrix (from_pandas_edgelist E) false
        = Except.ok (nl, m) ∧ matrixSum m = E.length) := by
  have hE : (from_pandas_edgelist E).edges = E := from_pandas_edgelist_edges hnd
  have hnodes : (from_pandas_edgelist E).nodes ≠ [] :=
    from_pandas_edgelist_nodes_ne_nil hne
  have hnd2 : (from_pandas_edgelist E).nodes.Nodup := by
    rw [from_pandas_edgelist_eq]
    exact buildSteps_nodes_nodup E emptyDiGraph List.nodup_nil
  have hend : ∀ e ∈ (from_pandas_edgelist E).edges,
      e.1.1 ∈ (from_pandas_edgelist E).nodes
        ∧ e.1.2 ∈ (from_pandas_edgelist E).nodes := by
    rw [from_pandas_edgelist_eq]
    exact buildSteps_endpoints E emptyDiGraph
      (fun e he => absurd he (List.not_mem_nil e))
  have hknd : ((from_pandas_edgelist E).edges.map Prod.fst).Nodup := by
    rw [hE]
    exact hnd
  constructor
  · refine ⟨_, _,
      graph_to_adjacency_matrix_ok_true _ (not_isEmpty_of_ne_nil hnodes), ?_⟩
    rw [matrixSum_map]
    have hcell : ∀ u v,
        (match edgeLabel? (from_pandas_edgelist E) u v with
         | some w => w
         | none => 0)
        = match (from_pandas_edgelist E).edges.find? fun e => e.1 = (u, v) with
          | some e => id e.2
          | none => 0 := by
      intro u v
      unfold edgeLabel?
      cases (from_pandas_edgelist E).edges.find? fun e => e.1 = (u, v) <;> rfl
    have hcong : ((from_pandas_edgelist E).nodes.map fun u =>
          ((from_pandas_edgelist E).nodes.map fun v =>
            match edgeLabel? (from_pandas_edgelist E) u v with
            | some w => w
            | none => 0).sum)
        = (from_pandas_edgelist E).nodes.map fun u =>
            ((from_pandas_edgelist E).nodes.map fun v =>
              match (from_pandas_edgelist E).edges.find?
                  fun e => e.1 = (u, v) with
              | some e => id e.2
              | none => 0).sum :=
      List.map_congr_left fun u _ => by
        rw [List.map_congr_left fun v _ => hcell u v]
    rw [hcong, sum_find_eq id (from_pandas_edgelist E).edges
      (from_pandas_edgelist E).nodes hknd hnd2 hend, hE]
    rfl
  · refine ⟨_, _,
      graph_to_adjacency_matrix_ok_false _ (not_isEmpty_of_ne_nil hnodes), ?_⟩
    rw [matrixSum_map]
    have hcell : ∀ u v,
        (match edgeLabel? (from_pandas_edgelist E) u v with
         | some _ => 1
         | none => 0)
        = match (from_pandas_edgelist E).edges.find? fun e => e.1 = (u, v) with
          | some e => (fun _ => 1) e.2
          | none => 0 := by
      intro u v
      unfold edgeLabel?
      cases (from_pandas_edgelist E).edges.find? fun e => e.1 = (u, v) <;> rfl
    have hcong : ((from_pandas_edgelist E).nodes.map fun u =>
          ((from_pandas_edgelist E).nodes.map fun v =>
            match edgeLabel? (from_pandas_edgelist E) u v with
            | some _ => 1
            | none => 0).sum)
        = (from_pandas_edgelist E).nodes.map fun u =>
            ((from_pandas_edgelist E).nodes.map fun v =>
              match (from_pandas_edgelist E).edges.find?
                  fun e => e.1 = (u, v) with
              | some e => (fun _ => 1) e.2
              | none => 0).sum :=
      List.map_congr_left fun u _ => by
        rw [List.map_congr_left fun v _ => hcell u v]
    rw [hcong, sum_find_eq (fun _ => 1) (from_pandas_edgelist E).edges
      (from_pandas_edgelist E).nodes hknd hnd2 hend, hE, sum_map_one]

/-- Witness for C9 at the two-edge graph of spec scenario 4. -/
theorem adjacency_matrix_sum_roundtrip_witness :
    ∃ nl m, graph_to_adjacency_matrix
        (from_pandas_edgelist
          [((("A" : NodeId), ("B" : NodeId)), 3), (("B", "A"), 1)]) true
      = Except.ok (nl, m)
      ∧ matrixSum m
        = ([((("A" : NodeId), ("B" : NodeId)), 3), (("B", "A"), 1)].map
            Prod.snd).sum :=
  (adjacency_matrix_sum_roundtrip
    [((("A" : NodeId), ("B" : NodeId)), 3), (("B", "A"), 1)]
    (by decide) (by decide)).1

/-- C10: for a fixed built graph object and a fixed use_weights flag,
adjacency-matrix extraction is deterministic across repeated calls and does
not modify the graph: in state-passing form, a second call run on the
post-state of a first call returns the identical result, and the final
post-state is the original graph. -/
theorem adjacency_matrix_extraction_deterministic (G : DiGraph) (uw : Bool) :
    (graph_to_adjacency_matrix_call
        ((graph_to_adjacency_matrix_call G uw).2) uw).1
      = (graph_to_adjacency_matrix_call G uw).1
    ∧ (graph_to_adjacency_matrix_call
        ((graph_to_adjacency_matrix_call G uw).2) uw).2 = G :=
  ⟨rfl, rfl⟩

end CFGBuilder
